import Mathlib

/-!
Verification of the notify_me repository against its specification.

The Python source is shallowly embedded: dictionaries become association
lists (`List (key × value)`), whose key order models Python dict insertion
order; fallible functions return `Except`; the network-dependent parts
(HTTP fetch, HTML extraction, Discord delivery) are oracle parameters of
the embedded functions, since they are external collaborators in the spec.

Embedded code:
- `diff`, `parse`, `current_state` from src/notify_me/topics/pccg.py
- the legacy `parse` from src/notify_me/pccg.py
- `NotificationCog.send` (chunking), `subscribe`, `unsubscribe`,
  `send_update`, `poll_for_changes` from src/notify_me/bot.py
-/

namespace NotifyMe

/-- A tracked item, as built by `parse` in src/notify_me/topics/pccg.py
line 66: `state[name] = {"name": name, "link": link, "status": status,
"price": price}`. -/
structure Item where
  name : String
  link : String
  status : String
  price : Int
deriving DecidableEq, Repr

/-- A state snapshot: the Python dict `Dict[str, gpu_type]`, embedded as an
association list in insertion order. -/
abbrev Snapshot := List (String × Item)

/-- Python dict lookup `d[k]` (first binding; dicts have unique keys). -/
def lookupKey (k : String) : Snapshot → Option Item
  | [] => none
  | p :: rest => if p.1 = k then some p.2 else lookupKey k rest

/-- Keys are pairwise distinct, as in every Python dict. -/
def nodupKeys (s : Snapshot) : Prop := (s.map Prod.fst).Nodup

instance (s : Snapshot) : Decidable (nodupKeys s) := by
  unfold nodupKeys; infer_instance

/-- First loop of `diff` (src/notify_me/topics/pccg.py lines 80-86): walk
`new_state`; a key absent from `old_state` is appended to `new`, a key
present in both with a differing `status` is appended to `changed` as the
pair (new item, old item). -/
def diffAddedChanged (old : Snapshot) : Snapshot → List Item × List (Item × Item)
  | [] => ([], [])
  | p :: rest =>
    let r := diffAddedChanged old rest
    match lookupKey p.1 old with
    | none => (p.2 :: r.1, r.2)
    | some w => if p.2.status ≠ w.status then (r.1, (p.2, w) :: r.2) else r

/-- Second loop of `diff` (lines 89-91): a key of `old_state` absent from
`new_state` is appended to `removed`. -/
def diffRemoved (new : Snapshot) : Snapshot → List Item
  | [] => []
  | p :: rest =>
    if (lookupKey p.1 new).isSome then diffRemoved new rest
    else p.2 :: diffRemoved new rest

/-- Function `diff(old_state, new_state)` from src/notify_me/topics/pccg.py lines
74-93, returning `(new, changed, removed)`. -/
def diff (old new : Snapshot) : List Item × List (Item × Item) × List Item :=
  ((diffAddedChanged old new).1, (diffAddedChanged old new).2, diffRemoved new old)

/-- One of the four categories the spec assigns to an itemKey. -/
inductive DiffClass where
  | added
  | changed
  | removed
  | unchanged
deriving DecidableEq, Repr

/-- The per-key classification in the spec's words (section 4.1): a key in
`new` but not `old` is added, a key in `old` but not `new` is removed, a
key in both is changed when the `status` fields differ and unchanged when
they agree; a key in neither gets no class. -/
def specClass (old new : Snapshot) (k : String) : Option DiffClass :=
  match lookupKey k old, lookupKey k new with
  | none, none => none
  | none, some _ => some .added
  | some _, none => some .removed
  | some w, some v => some (if v.status = w.status then .unchanged else .changed)

/-- Spec section 8 scenario, old side: `{"A": {status: "in stock"}}`. -/
def oldScenario : Snapshot := [("A", Item.mk "A" "linkA" "In Stock" 100)]

/-- Spec section 8 scenario, new side:
`{"A": {status: "sold out"}, "B": {status: "in stock"}}`. -/
def newScenario : Snapshot :=
  [("A", Item.mk "A" "linkA" "Sold Out" 100), ("B", Item.mk "B" "linkB" "In Stock" 150)]

/-- One product card as extracted from the page by the lxml xpath calls in
`parse` (src/notify_me/topics/pccg.py lines 52-58). The HTML/DOM
extraction itself is an external plug-in detail per the spec, so a card
carries the already-extracted fields; `priceInt` is the result of
`int(card.xpath(...)[0][1:])`, `none` when that conversion raised. -/
structure Card where
  name : String
  link : String
  status : String
  priceInt : Option Int
deriving DecidableEq, Repr

/-- Lines 56-66 of src/notify_me/topics/pccg.py: the item stored for a
card; a failed price conversion defaults the price to -1. -/
def cardItem (c : Card) : Item :=
  Item.mk c.name c.link c.status (c.priceInt.getD (-1))

/-- Python dict assignment `state[name] = item`: replace the binding in
place if the key exists, else append. -/
def insertItem : Snapshot → String → Item → Snapshot
  | [], k, v => [(k, v)]
  | p :: rest, k, v => if p.1 = k then (k, v) :: rest else p :: insertItem rest k v

/-- The card loop of `parse` (src/notify_me/topics/pccg.py lines 51-66). -/
def parseLoop : Snapshot → List Card → Snapshot
  | st, [] => st
  | st, c :: rest => parseLoop (insertItem st c.name (cardItem c)) rest

/-- Function `parse(page)` from src/notify_me/topics/pccg.py lines 46-71: build the
state from the extracted cards, then raise if it is empty (lines 68-69). -/
def parse (cards : List Card) : Except String Snapshot :=
  let state := parseLoop [] cards
  if state.length = 0 then
    Except.error "No content parsed from pccg site, something is wrong"
  else Except.ok state

/-- The loop of the legacy `parse` in src/notify_me/pccg.py lines 49-67:
there the `if len(state) == 0: raise` sits INSIDE the card loop (lines
66-67), so it runs once per card, after the card was inserted. -/
def parseLegacyLoop : Snapshot → List Card → Except String Snapshot
  | st, [] => Except.ok st
  | st, c :: rest =>
    let st2 := insertItem st c.name (cardItem c)
    if st2.length = 0 then
      Except.error "No content parsed from pccg site, something is wrong"
    else parseLegacyLoop st2 rest

/-- Function `parse(page)` from the legacy src/notify_me/pccg.py lines 44-69. -/
def parseLegacy (cards : List Card) : Except String Snapshot :=
  parseLegacyLoop [] cards

/-- Stable insertion of `x` into `l`: `x` goes before the first element it
compares `le` to, so equal elements keep their original relative order. -/
def sortIns {α : Type} (le : α → α → Bool) (x : α) : List α → List α
  | [] => [x]
  | y :: ys => if le x y then x :: y :: ys else y :: sortIns le x ys

/-- Stable sort. Python's `sorted` (Timsort) is a stable sort; over a
decidable total preorder every stable sort computes the same list, so the
embedding uses stable insertion sort. -/
def sortStable {α : Type} (le : α → α → Bool) : List α → List α
  | [] => []
  | x :: xs => sortIns le x (sortStable le xs)

/-- The comparison of `sorted(..., key=lambda x: x['price'])`. -/
def priceLe (a b : Item) : Bool := decide (a.price ≤ b.price)

/-- The comparison of `sorted(..., key=lambda x: x['status'])`; Python
compares the status strings lexicographically. -/
def statusLe (a b : Item) : Bool := decide (a.status ≤ b.status)

/-- A topic's config dict: `{"type": ..., "last_state": ..., "subscribers":
..., "url": ...}` (src/notify_me/bot.py lines 56-61); only the fields the
core logic reads are carried, subscribers as Discord user ids. -/
structure TopicConfig where
  lastState : Snapshot
  subscribers : List Nat
deriving DecidableEq, Repr

/-- Function `current_state(config)` from src/notify_me/topics/pccg.py lines
119-127, up to text rendering: the message is one line
per item of this list, in this order (line 124:
`sorted(sorted(state.values(), key=lambda x: x['price']), key=lambda x:
x['status'])`, two stable sorts). -/
def current_state_order (config : TopicConfig) : List Item :=
  sortStable statusLe (sortStable priceLe (config.lastState.map Prod.snd))

/-- The order the report is claimed to satisfy: status first,
then price ascending. -/
def statusPriceLe (a b : Item) : Prop :=
  a.status < b.status ∨ (a.status = b.status ∧ a.price ≤ b.price)

/-- Python method `str.find`: index of the first occurrence, `none` (Python:
-1) when absent. -/
def strFind (c : Char) : List Char → Option Nat
  | [] => none
  | x :: xs => if x = c then some 0 else (strFind c xs).map (· + 1)

/-- The per-iteration advance of `NotificationCog.send` (src/notify_me/
bot.py lines 374-379): `length = chunk[::-1].find("\n")` and both the
chunk cut and the offset advance are `2000 - length`; `find` returning -1
makes that 2001. -/
def sendCut (window : List Char) : Nat :=
  match strFind '\n' window.reverse with
  | none => 2001
  | some l => 2000 - l

/-- The `while offset < len(message)` loop of `NotificationCog.send`
(src/notify_me/bot.py lines 374-381), written on the remaining suffix of
the message; the fuel argument only bounds the recursion and is chosen
large enough in `sendChunks` (each iteration consumes at least one
character). -/
def sendLoop : Nat → List Char → List (List Char)
  | 0, _ => []
  | fuel + 1, msg =>
    if msg.isEmpty then []
    else
      let window := msg.take 2000
      let cut := sendCut window
      window.take cut :: sendLoop fuel (msg.drop cut)

/-- The list of chunks `NotificationCog.send` passes to
`messageable.send`, in order. -/
def sendChunks (message : List Char) : List (List Char) :=
  sendLoop message.length message

/-- Every full 2000-character window of the message contains a newline;
equivalently, the message has no 2000 consecutive newline-free
characters. -/
def hasNewlineWindows (msg : List Char) : Prop :=
  ∀ i, i < msg.length → ((msg.drop i).take 2000).length = 2000 →
    '\n' ∈ (msg.drop i).take 2000

instance (msg : List Char) : Decidable (hasNewlineWindows msg) := by
  unfold hasNewlineWindows; infer_instance

/-- The whole bot state dict `self.topics` (admins are irrelevant to the
claims). -/
abbrev Topics := List (String × TopicConfig)

/-- Dict lookup `self.topics[name]` / `name in self.topics`. -/
def lookupTopic (k : String) : Topics → Option TopicConfig
  | [] => none
  | p :: rest => if p.1 = k then some p.2 else lookupTopic k rest

/-- In-place mutation of one entry of the dict (`self.topics[topic][...] =
...`): rewrite the (unique) binding of `k`, leave all others. -/
def updateTopic : Topics → String → (TopicConfig → TopicConfig) → Topics
  | [], _, _ => []
  | p :: rest, k, f =>
    if p.1 = k then (p.1, f p.2) :: rest else p :: updateTopic rest k f

/-- Line `self.topics[topic]["subscribers"].append(ctx.author.id)`
(src/notify_me/bot.py line 187). -/
def addSubscriber (uid : Nat) (c : TopicConfig) : TopicConfig :=
  TopicConfig.mk c.lastState (c.subscribers ++ [uid])

/-- The list comprehension of `unsubscribe` (src/notify_me/bot.py lines
231-235): keep every subscriber different from the requester. -/
def removeSubscriber (uid : Nat) (c : TopicConfig) : TopicConfig :=
  TopicConfig.mk c.lastState (c.subscribers.filter (fun s => s ≠ uid))

/-- Command `NotificationCog.subscribe` (src/notify_me/bot.py lines 169-192):
unknown topic or already-subscribed requester get a reply and no mutation
(Bool result: whether `self.save()` ran); otherwise the id is appended and
the document saved. -/
def subscribe (ts : Topics) (topic : String) (uid : Nat) : Topics × Bool :=
  match lookupTopic topic ts with
  | none => (ts, false)
  | some cfg =>
    if uid ∈ cfg.subscribers then (ts, false)
    else (updateTopic ts topic (addSubscriber uid), true)

/-- Command `NotificationCog.unsubscribe` (src/notify_me/bot.py lines 213-239). -/
def unsubscribe (ts : Topics) (topic : String) (uid : Nat) : Topics × Bool :=
  match lookupTopic topic ts with
  | none => (ts, false)
  | some cfg =>
    if uid ∈ cfg.subscribers then (updateTopic ts topic (removeSubscriber uid), true)
    else (ts, false)

/-- The single privileged identity of `send_update`
(src/notify_me/bot.py line 153). -/
def magicId : Nat := 207076915935313920

/-- Statement `all_subscribers.add(subscriber)`: adding to a Python set keeps one
copy of each id. A Python set iterates in an unspecified order; the
embedding fixes first-insertion order, which is irrelevant to the
claims. -/
def insertUnique (acc : List Nat) (s : Nat) : List Nat :=
  if s ∈ acc then acc else acc ++ [s]

/-- The set comprehension of `send_update` (src/notify_me/bot.py lines
160-163): the union of all topics' subscriber lists. -/
def allSubscribers (ts : Topics) : List Nat :=
  ts.foldl (fun acc p => p.2.subscribers.foldl insertUnique acc) []

/-- Command `NotificationCog.send_update` (src/notify_me/bot.py lines
149-167). Result: the identities the broadcast message is actually sent
to, and whether the command finished without raising. A requester other
than the privileged identity gets only the refusal reply (line 154). For
the privileged requester the loop over the deduplicated subscriber set
runs `user = await self.bot.get_user(subscriber_id)` (line 166) first in
every iteration — but `Client.get_user` is synchronous (this same file
calls it without `await` at lines 271, 307 and 358), so awaiting its
`User`/`None` result raises `TypeError` before any send: with at least
one subscriber the first iteration raises and nobody receives the
message; with zero subscribers the loop body never runs. -/
def send_update (ts : Topics) (author : Nat) : List Nat × Bool :=
  if author = magicId then
    match allSubscribers ts with
    | [] => ([], true)
    | _ :: _ => ([], false)
  else ([], true)

/-- Outcome of one `await run(name, self.topics[name])` call: the plugin
either raises (fetch `QueryError` / parse error), returns `(None, None)`
for an empty diff, or returns a message and the new snapshot. The outcome
is an oracle parameter because fetch and parse consume the network. -/
inductive RunResult where
  | failed
  | quiet
  | changed (msg : String) (newState : Snapshot)

/-- Outcome of notifying one subscriber inside the poll loop:
`self.bot.get_user` returned `None` (missing), the send succeeded, or the
send raised. -/
inductive SendOutcome where
  | missing
  | delivered
  | raised

/-- The external world of one poll cycle: per-topic plugin outcomes and
per-(topic, subscriber) delivery outcomes. -/
structure CycleEnv where
  runs : String → RunResult
  sends : String → Nat → SendOutcome

/-- In-memory topics plus the last document written through
`self.storage.save` (src/notify_me/bot.py lines 72-73). -/
structure BotState where
  topics : Topics
  saved : Topics
deriving DecidableEq, Repr

/-- Assignment `self.topics[name]["last_state"] = new_state` (line 327). -/
def setLastState (ns : Snapshot) (c : TopicConfig) : TopicConfig :=
  TopicConfig.mk ns c.subscribers

/-- The subscriber loop of `poll_for_changes` (src/notify_me/bot.py lines
302-325): suppressed sends and failed user lookups `continue`; a raising
send propagates (result false) and later subscribers are not attempted;
true means the loop finished without an exception. -/
def deliverAll (env : CycleEnv) (suppress : Bool) (name : String) : List Nat → Bool
  | [] => true
  | s :: rest =>
    if suppress then deliverAll env suppress name rest
    else
      match env.sends name s with
      | .missing => deliverAll env suppress name rest
      | .delivered => deliverAll env suppress name rest
      | .raised => false

/-- The topic loop of `poll_for_changes` (src/notify_me/bot.py lines
289-337). The surrounding `try/except Exception` covers the WHOLE loop, so
any exception (a raising plugin run or a raising send) ends the cycle at
once: the returned flag is false and no further topic is processed.
A truthy message whose deliveries all succeed commits: `last_state` is
assigned and the whole document saved (lines 327-328). A falsy message
skips the commit (`if message:`, line 296). -/
def cycleGo (env : CycleEnv) (suppress : Bool) : List String → BotState → BotState × Bool
  | [], st => (st, true)
  | name :: rest, st =>
    match lookupTopic name st.topics with
    | none => (st, false)
    | some cfg =>
      match env.runs name with
      | .failed => (st, false)
      | .quiet => cycleGo env suppress rest st
      | .changed msg ns =>
        if msg = "" then cycleGo env suppress rest st
        else if deliverAll env suppress name cfg.subscribers then
          let t2 := updateTopic st.topics name (setLastState ns)
          cycleGo env suppress rest (BotState.mk t2 t2)
        else (st, false)

/-- One full `poll_for_changes` cycle: iterate the topics dict in key
order. -/
def poll_for_changes (env : CycleEnv) (suppress : Bool) (st : BotState) :
    BotState × Bool :=
  cycleGo env suppress (st.topics.map Prod.fst) st

/-- The environment of the concrete single-topic witness cycle: the plugin
reports a change and every delivery succeeds. -/
def envW : CycleEnv :=
  CycleEnv.mk (fun _ => RunResult.changed "m" [("x", Item.mk "x" "lx" "In Stock" 1)])
    (fun _ _ => SendOutcome.delivered)

/-- The pre-cycle state of the witness: one topic with one subscriber and
an empty last snapshot. -/
def stW : BotState :=
  BotState.mk [("T", TopicConfig.mk [] [5])] []

/-- The environment of the C2 counterexample: topic "A"'s plugin raises
(fetch/parse error) while topic "B"'s plugin reports a change; all
deliveries would succeed. -/
def envC2 : CycleEnv :=
  CycleEnv.mk
    (fun name => if name = "A" then RunResult.failed
      else RunResult.changed "m" [("x", Item.mk "x" "lx" "In Stock" 1)])
    (fun _ _ => SendOutcome.delivered)

/-- The pre-cycle state of the C2 counterexample: two topics, no
subscribers, empty last snapshots. -/
def stC2 : BotState :=
  BotState.mk [("A", TopicConfig.mk [] []), ("B", TopicConfig.mk [] [])] []

end NotifyMe

namespace NotifyMe

theorem lookupKey_eq_some_of_mem {s : Snapshot} {k : String} {v : Item}
    (hnd : nodupKeys s) (hm : (k, v) ∈ s) : lookupKey k s = some v := by
  induction s with
  | nil => cases hm
  | cons p rest ih =>
    rcases List.mem_cons.mp hm with h | h
    · subst h; simp [lookupKey]
    · have hk : p.1 ≠ k := by
        intro hEq
        have : k ∈ rest.map Prod.fst := List.mem_map.mpr ⟨(k, v), h, rfl⟩
        have := (List.nodup_cons.mp hnd).1
        exact this (hEq ▸ ‹k ∈ rest.map Prod.fst›)
      have hnd' : nodupKeys rest := (List.nodup_cons.mp hnd).2
      simp [lookupKey, hk, ih hnd' h]

theorem lookupKey_isSome_of_mem {s : Snapshot} {p : String × Item}
    (hm : p ∈ s) : (lookupKey p.1 s).isSome := by
  induction s with
  | nil => cases hm
  | cons q rest ih =>
    rcases List.mem_cons.mp hm with h | h
    · subst h; simp [lookupKey]
    · by_cases hq : q.1 = p.1
      · simp [lookupKey, hq]
      · simp [lookupKey, hq, ih h]

theorem diffAddedChanged_self_nil {S : Snapshot} :
    ∀ l : Snapshot, (∀ p ∈ l, lookupKey p.1 S = some p.2) →
      diffAddedChanged S l = ([], []) := by
  intro l
  induction l with
  | nil => intro _; rfl
  | cons p rest ih =>
    intro h
    have hp := h p (List.mem_cons_self p rest)
    have hrest := ih (fun q hq => h q (List.mem_cons_of_mem p hq))
    simp [diffAddedChanged, hrest, hp]

theorem diffRemoved_self_nil {S : Snapshot} :
    ∀ l : Snapshot, (∀ p ∈ l, (lookupKey p.1 S).isSome) →
      diffRemoved S l = [] := by
  intro l
  induction l with
  | nil => intro _; rfl
  | cons p rest ih =>
    intro h
    have hp := h p (List.mem_cons_self p rest)
    have hrest := ih (fun q hq => h q (List.mem_cons_of_mem p hq))
    simp [diffRemoved, hp, hrest]

theorem filterEq {α : Type} (f g : α → Bool) :
    ∀ l : List α, (∀ x ∈ l, f x = g x) → l.filter f = l.filter g := by
  intro l
  induction l with
  | nil => intro _; rfl
  | cons x rest ih =>
    intro h
    have hx := h x (List.mem_cons_self x rest)
    have hr := ih (fun y hy => h y (List.mem_cons_of_mem x hy))
    simp [List.filter, hx, hr]

theorem filterMapEq {α β : Type} (f g : α → Option β) :
    ∀ l : List α, (∀ x ∈ l, f x = g x) → l.filterMap f = l.filterMap g := by
  intro l
  induction l with
  | nil => intro _; rfl
  | cons x rest ih =>
    intro h
    have hx := h x (List.mem_cons_self x rest)
    have hr := ih (fun y hy => h y (List.mem_cons_of_mem x hy))
    simp [List.filterMap, hx, hr]

theorem diffAddedChanged_fst (old : Snapshot) :
    ∀ new : Snapshot, (diffAddedChanged old new).1 =
      (new.filter (fun p => (lookupKey p.1 old).isNone)).map Prod.snd := by
  intro new
  induction new with
  | nil => rfl
  | cons p rest ih =>
    cases h : lookupKey p.1 old with
    | none => simp [diffAddedChanged, h, ih]
    | some w =>
      by_cases hs : p.2.status = w.status <;>
        simp [diffAddedChanged, h, hs, ih]

theorem diffAddedChanged_snd (old : Snapshot) :
    ∀ new : Snapshot, (diffAddedChanged old new).2 =
      new.filterMap (fun p =>
        match lookupKey p.1 old with
        | none => none
        | some w => if p.2.status ≠ w.status then some (p.2, w) else none) := by
  intro new
  induction new with
  | nil => rfl
  | cons p rest ih =>
    cases h : lookupKey p.1 old with
    | none => simp [diffAddedChanged, List.filterMap_cons, h, ih]
    | some w =>
      by_cases hs : p.2.status = w.status <;>
        simp [diffAddedChanged, List.filterMap_cons, h, hs, ih]

theorem diffRemoved_eq (new : Snapshot) :
    ∀ old : Snapshot, diffRemoved new old =
      (old.filter (fun p => (lookupKey p.1 new).isNone)).map Prod.snd := by
  intro old
  induction old with
  | nil => rfl
  | cons p rest ih =>
    cases h : lookupKey p.1 new with
    | none => simp [diffRemoved, h, ih]
    | some w => simp [diffRemoved, h, ih]

/-- C3: `diff(old, new)` classifies each itemKey into exactly one of
added / changed / removed / unchanged. The classification `specClass` is
single-valued by construction and is defined exactly on the keys of
`old ∪ new` (last conjunct); the first three conjuncts state that the
three output lists of `diff` contain exactly the items whose key falls in
the corresponding class, in snapshot order, changed entries as the pair
(new item, old item); unchanged keys (equal `status`, even with differing
`price` or other fields) contribute to no list. -/
theorem diff_classification (old new : Snapshot) (hn : nodupKeys new) :
    (diff old new).1 =
      (new.filter (fun p => specClass old new p.1 = some .added)).map Prod.snd
  ∧ (diff old new).2.1 =
      new.filterMap (fun p =>
        if specClass old new p.1 = some .changed then
          (lookupKey p.1 old).map (fun w => (p.2, w))
        else none)
  ∧ (diff old new).2.2 =
      (old.filter (fun p => specClass old new p.1 = some .removed)).map Prod.snd
  ∧ ∀ k, (specClass old new k).isSome ↔
      ((lookupKey k old).isSome ∨ (lookupKey k new).isSome) := by
  refine ⟨?_, ?_, ?_, ?_⟩
  · rw [show (diff old new).1 = (diffAddedChanged old new).1 from rfl,
      diffAddedChanged_fst]
    congr 1
    apply filterEq
    intro p hp
    have hv : lookupKey p.1 new = some p.2 := lookupKey_eq_some_of_mem hn hp
    cases h : lookupKey p.1 old with
    | none => simp [specClass, h, hv]
    | some w =>
      by_cases hs : p.2.status = w.status <;> simp [specClass, h, hv, hs]
  · rw [show (diff old new).2.1 = (diffAddedChanged old new).2 from rfl,
      diffAddedChanged_snd]
    apply filterMapEq
    intro p hp
    have hv : lookupKey p.1 new = some p.2 := lookupKey_eq_some_of_mem hn hp
    cases h : lookupKey p.1 old with
    | none => simp [specClass, h, hv]
    | some w =>
      by_cases hs : p.2.status = w.status <;> simp [specClass, h, hv, hs]
  · rw [show (diff old new).2.2 = diffRemoved new old from rfl, diffRemoved_eq]
    congr 1
    apply filterEq
    intro p hp
    have hv : (lookupKey p.1 old).isSome := lookupKey_isSome_of_mem hp
    rcases Option.isSome_iff_exists.mp hv with ⟨w, hw⟩
    cases h : lookupKey p.1 new with
    | none => simp [specClass, hw, h]
    | some v =>
      by_cases hs : v.status = w.status <;> simp [specClass, hw, h, hs]
  · intro k
    cases h : lookupKey k old <;> cases h2 : lookupKey k new <;>
      simp [specClass, h, h2]

/-- Witness for C3 at the spec section 8 scenario. -/
theorem diff_classification_witness :
    nodupKeys newScenario ∧
    ((diff oldScenario newScenario).1 =
      (newScenario.filter
        (fun p => specClass oldScenario newScenario p.1 = some .added)).map Prod.snd
  ∧ (diff oldScenario newScenario).2.1 =
      newScenario.filterMap (fun p =>
        if specClass oldScenario newScenario p.1 = some .changed then
          (lookupKey p.1 oldScenario).map (fun w => (p.2, w))
        else none)
  ∧ (diff oldScenario newScenario).2.2 =
      (oldScenario.filter
        (fun p => specClass oldScenario newScenario p.1 = some .removed)).map Prod.snd
  ∧ ∀ k, (specClass oldScenario newScenario k).isSome ↔
      ((lookupKey k oldScenario).isSome ∨ (lookupKey k newScenario).isSome)) :=
  ⟨by decide, diff_classification oldScenario newScenario (by decide)⟩

/-- C5: for every snapshot `S` (with the dict guarantee of distinct keys),
`diff(S, S)` is the empty diff: no added, no changed, no removed items. -/
theorem diff_self_empty (S : Snapshot) (hnd : nodupKeys S) :
    diff S S = ([], [], []) := by
  have h1 : diffAddedChanged S S = ([], []) :=
    diffAddedChanged_self_nil S (fun p hp => lookupKey_eq_some_of_mem hnd hp)
  have h2 : diffRemoved S S = [] :=
    diffRemoved_self_nil S (fun p hp => lookupKey_isSome_of_mem hp)
  simp [diff, h1, h2]

theorem parse_ok_nonempty : ∀ cards st, parse cards = Except.ok st → st ≠ [] := by
  intro cards st h
  unfold parse at h
  by_cases hz : (parseLoop [] cards).length = 0
  · simp [hz] at h
  · simp [hz] at h
    intro hnil
    rw [h, hnil] at hz
    exact hz rfl

/-- C6: the live `parse` (src/notify_me/topics/pccg.py) raises on a payload
yielding zero items (and by `parse_ok_nonempty` above, never returns an
empty snapshot); but the legacy `parse` (src/notify_me/pccg.py) placed
the zero-item check inside the card loop, where it can never fire, so on a
zero-card payload (e.g. the page `<html></html>` of its own
`test_bad_parse_pccg`) it returns the empty snapshot instead of raising.
The last conjunct evaluates both functions on a one-card payload, where
they agree. -/
theorem parse_empty_behavior :
    parse [] = Except.error "No content parsed from pccg site, something is wrong"
  ∧ parseLegacy [] = Except.ok []
  ∧ parse [Card.mk "x" "lx" "In Stock" (some 10)]
      = Except.ok [("x", Item.mk "x" "lx" "In Stock" 10)]
  ∧ parseLegacy [Card.mk "x" "lx" "In Stock" (some 10)]
      = Except.ok [("x", Item.mk "x" "lx" "In Stock" 10)] :=
  ⟨rfl, rfl, rfl, rfl⟩

theorem insertUnique_nodup {acc : List Nat} (h : acc.Nodup) (s : Nat) :
    (insertUnique acc s).Nodup := by
  unfold insertUnique
  by_cases hs : s ∈ acc
  · simp [hs, h]
  · simp [hs, List.nodup_append, h]

theorem mem_insertUnique {acc : List Nat} {x s : Nat} :
    x ∈ insertUnique acc s ↔ x ∈ acc ∨ x = s := by
  unfold insertUnique
  by_cases hs : s ∈ acc
  · simp only [hs, if_true]
    constructor
    · exact fun h => Or.inl h
    · rintro (h | h)
      · exact h
      · exact h ▸ hs
  · simp [hs]

theorem foldl_insertUnique_nodup (subs : List Nat) :
    ∀ acc : List Nat, acc.Nodup → (subs.foldl insertUnique acc).Nodup := by
  induction subs with
  | nil => intro acc h; exact h
  | cons s rest ih =>
    intro acc h
    exact ih (insertUnique acc s) (insertUnique_nodup h s)

theorem mem_foldl_insertUnique (subs : List Nat) :
    ∀ (acc : List Nat) (x : Nat),
      x ∈ subs.foldl insertUnique acc ↔ x ∈ acc ∨ x ∈ subs := by
  induction subs with
  | nil => intro acc x; simp
  | cons s rest ih =>
    intro acc x
    rw [List.foldl_cons, ih, mem_insertUnique]
    simp [or_assoc]

theorem allSubscribers_aux_nodup (ts : Topics) :
    ∀ acc : List Nat, acc.Nodup →
      (ts.foldl (fun acc p => p.2.subscribers.foldl insertUnique acc) acc).Nodup := by
  induction ts with
  | nil => intro acc h; exact h
  | cons p rest ih =>
    intro acc h
    exact ih _ (foldl_insertUnique_nodup p.2.subscribers acc h)

theorem mem_allSubscribers_aux (ts : Topics) :
    ∀ (acc : List Nat) (x : Nat),
      x ∈ ts.foldl (fun acc p => p.2.subscribers.foldl insertUnique acc) acc ↔
        x ∈ acc ∨ ∃ p ∈ ts, x ∈ p.2.subscribers := by
  induction ts with
  | nil => intro acc x; simp
  | cons p rest ih =>
    intro acc x
    rw [List.foldl_cons, ih, mem_foldl_insertUnique]
    constructor
    · rintro ((h | h) | ⟨q, hq, hx⟩)
      · exact Or.inl h
      · exact Or.inr ⟨p, List.mem_cons_self p rest, h⟩
      · exact Or.inr ⟨q, List.mem_cons_of_mem p hq, hx⟩
    · rintro (h | ⟨q, hq, hx⟩)
      · exact Or.inl (Or.inl h)
      · rcases List.mem_cons.mp hq with hq | hq
        · exact Or.inl (Or.inr (hq ▸ hx))
        · exact Or.inr ⟨q, hq, hx⟩

/-- C10: evaluation of `send_update` at a failing input. The broadcast
never delivers to anyone (first conjunct, for every state and requester):
the unauthorized requester only gets the refusal reply, and the
privileged requester's loop awaits the synchronous `Client.get_user` and
so raises `TypeError` on its first iteration. Concretely: with one
subscriber (id 5) the privileged broadcast raises before any send and id 5
never receives the message, although the deduplicated subscriber set is
the non-empty `[5]`; an unauthorized requester (id 9) also delivers to no
subscriber and returns normally. -/
theorem send_update_crash :
    (∀ (ts : Topics) (author : Nat), (send_update ts author).1 = [])
  ∧ send_update [("T", TopicConfig.mk [] [5])] magicId = ([], false)
  ∧ allSubscribers [("T", TopicConfig.mk [] [5])] = [5]
  ∧ send_update [("T", TopicConfig.mk [] [5])] 9 = ([], true) := by
  refine ⟨?_, rfl, rfl, rfl⟩
  intro ts author
  unfold send_update
  by_cases h : author = magicId
  · rw [if_pos h]
    cases allSubscribers ts <;> rfl
  · rw [if_neg h]

theorem lookupTopic_updateTopic_self (ts : Topics) (k : String)
    (f : TopicConfig → TopicConfig) :
    lookupTopic k (updateTopic ts k f) = (lookupTopic k ts).map f := by
  induction ts with
  | nil => rfl
  | cons p rest ih =>
    by_cases h : p.1 = k
    · simp [updateTopic, lookupTopic, h]
    · simp [updateTopic, lookupTopic, h, ih]

theorem lookupTopic_updateTopic_other (ts : Topics) (k name : String)
    (f : TopicConfig → TopicConfig) (hne : name ≠ k) :
    lookupTopic name (updateTopic ts k f) = lookupTopic name ts := by
  induction ts with
  | nil => rfl
  | cons p rest ih =>
    by_cases h : p.1 = k
    · subst h
      simp [updateTopic, lookupTopic, Ne.symm hne]
    · simp [updateTopic, lookupTopic, h, ih]

theorem lookupTopic_mem {ts : Topics} {k : String} {cfg : TopicConfig}
    (hl : lookupTopic k ts = some cfg) : (k, cfg) ∈ ts := by
  induction ts with
  | nil => cases hl
  | cons q rest ih =>
    by_cases h : q.1 = k
    · rw [show lookupTopic k (q :: rest) = some q.2 by simp [lookupTopic, h]] at hl
      have h2 : q.2 = cfg := Option.some_inj.mp hl
      have hq : q = (k, cfg) := by
        calc q = (q.1, q.2) := rfl
          _ = (k, cfg) := by rw [h, h2]
      rw [hq]
      exact List.mem_cons_self _ _
    · rw [show lookupTopic k (q :: rest) = lookupTopic k rest by
        simp [lookupTopic, h]] at hl
      exact List.mem_cons_of_mem q (ih hl)

theorem mem_updateTopic_pred (P : TopicConfig → Prop) {ts : Topics} {k : String}
    {f : TopicConfig → TopicConfig} {cfg : TopicConfig}
    (hl : lookupTopic k ts = some cfg) (hall : ∀ p ∈ ts, P p.2) (hf : P (f cfg)) :
    ∀ p ∈ updateTopic ts k f, P p.2 := by
  induction ts with
  | nil => intro p hp; cases hp
  | cons q rest ih =>
    intro p hp
    by_cases h : q.1 = k
    · rw [show lookupTopic k (q :: rest) = some q.2 by simp [lookupTopic, h]] at hl
      rw [show updateTopic (q :: rest) k f = (q.1, f q.2) :: rest by
        simp [updateTopic, h]] at hp
      rcases List.mem_cons.mp hp with hp | hp
      · subst hp; simpa [Option.some_inj.mp hl] using hf
      · exact hall p (List.mem_cons_of_mem q hp)
    · rw [show lookupTopic k (q :: rest) = lookupTopic k rest by
        simp [lookupTopic, h]] at hl
      rw [show updateTopic (q :: rest) k f = q :: updateTopic rest k f by
        simp [updateTopic, h]] at hp
      rcases List.mem_cons.mp hp with hp | hp
      · rw [hp]; exact hall q (List.mem_cons_self q rest)
      · exact ih hl (fun r hr => hall r (List.mem_cons_of_mem q hr)) p hp

/-- C9: subscribe and unsubscribe preserve duplicate-free subscriber
lists; subscribe mutates nothing when the requester is already subscribed
and otherwise appends exactly them; unsubscribe leaves no occurrence of
the requester; and neither command touches any other topic's entry. -/
theorem subscription_invariants (ts : Topics) (topic : String) (uid : Nat)
    (hnd : ∀ p ∈ ts, p.2.subscribers.Nodup) :
    (∀ p ∈ (subscribe ts topic uid).1, p.2.subscribers.Nodup)
  ∧ (∀ p ∈ (unsubscribe ts topic uid).1, p.2.subscribers.Nodup)
  ∧ (∀ name, name ≠ topic →
        lookupTopic name (subscribe ts topic uid).1 = lookupTopic name ts
      ∧ lookupTopic name (unsubscribe ts topic uid).1 = lookupTopic name ts)
  ∧ (∀ cfg, lookupTopic topic ts = some cfg → uid ∈ cfg.subscribers →
        subscribe ts topic uid = (ts, false))
  ∧ (∀ cfg, lookupTopic topic ts = some cfg → uid ∉ cfg.subscribers →
        lookupTopic topic (subscribe ts topic uid).1 = some (addSubscriber uid cfg))
  ∧ (∀ cfg, lookupTopic topic (unsubscribe ts topic uid).1 = some cfg →
        uid ∉ cfg.subscribers) := by
  refine ⟨?_, ?_, ?_, ?_, ?_, ?_⟩
  · unfold subscribe
    cases hl : lookupTopic topic ts with
    | none => exact hnd
    | some cfg =>
      by_cases hm : uid ∈ cfg.subscribers
      · simpa [hm] using hnd
      · simp only [hm, if_false]
        refine mem_updateTopic_pred (fun c => c.subscribers.Nodup) hl hnd ?_
        unfold addSubscriber
        have hc : cfg.subscribers.Nodup := hnd _ (lookupTopic_mem hl)
        simp [List.nodup_append, hc, hm]
  · unfold unsubscribe
    cases hl : lookupTopic topic ts with
    | none => exact hnd
    | some cfg =>
      by_cases hm : uid ∈ cfg.subscribers
      · simp only [hm, if_true]
        refine mem_updateTopic_pred (fun c => c.subscribers.Nodup) hl hnd ?_
        unfold removeSubscriber
        exact (hnd _ (lookupTopic_mem hl)).filter _
      · simpa [hm] using hnd
  · intro name hne
    constructor
    · unfold subscribe
      cases hl : lookupTopic topic ts with
      | none => rfl
      | some cfg =>
        by_cases hm : uid ∈ cfg.subscribers
        · simp [hm]
        · simp only [hm, if_false]
          exact lookupTopic_updateTopic_other ts topic name _ hne
    · unfold unsubscribe
      cases hl : lookupTopic topic ts with
      | none => rfl
      | some cfg =>
        by_cases hm : uid ∈ cfg.subscribers
        · simp only [hm, if_true]
          exact lookupTopic_updateTopic_other ts topic name _ hne
        · simp [hm]
  · intro cfg hl hm
    unfold subscribe
    rw [hl]
    simp [hm]
  · intro cfg hl hm
    unfold subscribe
    rw [hl]
    simp only [hm, if_false]
    rw [lookupTopic_updateTopic_self, hl]
    rfl
  · intro cfg hl
    unfold unsubscribe at hl
    cases hl0 : lookupTopic topic ts with
    | none =>
      rw [hl0] at hl
      simp only at hl
      rw [hl0] at hl
      cases hl
    | some cfg0 =>
      rw [hl0] at hl
      by_cases hm : uid ∈ cfg0.subscribers
      · simp only [hm, if_true] at hl
        rw [lookupTopic_updateTopic_self, hl0] at hl
        have : removeSubscriber uid cfg0 = cfg := Option.some_inj.mp hl
        rw [← this]
        unfold removeSubscriber
        simp
      · simp only [hm, if_false] at hl
        rw [hl0] at hl
        have : cfg0 = cfg := Option.some_inj.mp hl
        exact this ▸ hm

/-- Witness for C9 at a concrete two-topic state. -/
theorem subscription_invariants_witness :
    (∀ p ∈ [("T", TopicConfig.mk [] [5, 7]), ("U", TopicConfig.mk [] [7])],
        p.2.subscribers.Nodup)
  ∧ ((∀ p ∈ (subscribe [("T", TopicConfig.mk [] [5, 7]), ("U", TopicConfig.mk [] [7])] "T" 9).1,
        p.2.subscribers.Nodup)
  ∧ (∀ p ∈ (unsubscribe [("T", TopicConfig.mk [] [5, 7]), ("U", TopicConfig.mk [] [7])] "T" 9).1,
        p.2.subscribers.Nodup)
  ∧ (∀ name, name ≠ "T" →
        lookupTopic name (subscribe [("T", TopicConfig.mk [] [5, 7]), ("U", TopicConfig.mk [] [7])] "T" 9).1
          = lookupTopic name [("T", TopicConfig.mk [] [5, 7]), ("U", TopicConfig.mk [] [7])]
      ∧ lookupTopic name (unsubscribe [("T", TopicConfig.mk [] [5, 7]), ("U", TopicConfig.mk [] [7])] "T" 9).1
          = lookupTopic name [("T", TopicConfig.mk [] [5, 7]), ("U", TopicConfig.mk [] [7])])
  ∧ (∀ cfg, lookupTopic "T" [("T", TopicConfig.mk [] [5, 7]), ("U", TopicConfig.mk [] [7])] = some cfg →
        9 ∈ cfg.subscribers →
        subscribe [("T", TopicConfig.mk [] [5, 7]), ("U", TopicConfig.mk [] [7])] "T" 9
          = ([("T", TopicConfig.mk [] [5, 7]), ("U", TopicConfig.mk [] [7])], false))
  ∧ (∀ cfg, lookupTopic "T" [("T", TopicConfig.mk [] [5, 7]), ("U", TopicConfig.mk [] [7])] = some cfg →
        9 ∉ cfg.subscribers →
        lookupTopic "T" (subscribe [("T", TopicConfig.mk [] [5, 7]), ("U", TopicConfig.mk [] [7])] "T" 9).1
          = some (addSubscriber 9 cfg))
  ∧ (∀ cfg, lookupTopic "T" (unsubscribe [("T", TopicConfig.mk [] [5, 7]), ("U", TopicConfig.mk [] [7])] "T" 9).1
        = some cfg → 9 ∉ cfg.subscribers)) :=
  ⟨by decide, subscription_invariants
    [("T", TopicConfig.mk [] [5, 7]), ("U", TopicConfig.mk [] [7])] "T" 9 (by decide)⟩

theorem sortIns_perm {α : Type} (le : α → α → Bool) (x : α) :
    ∀ l : List α, List.Perm (sortIns le x l) (x :: l) := by
  intro l
  induction l with
  | nil => exact List.Perm.refl _
  | cons y ys ih =>
    unfold sortIns
    by_cases h : le x y
    · simp [h]
    · simp only [h, if_false]
      exact (ih.cons y).trans (List.Perm.swap x y ys)

theorem sortStable_perm {α : Type} (le : α → α → Bool) :
    ∀ l : List α, List.Perm (sortStable le l) l := by
  intro l
  induction l with
  | nil => exact List.Perm.refl _
  | cons x xs ih =>
    exact (sortIns_perm le x (sortStable le xs)).trans (ih.cons x)

theorem pairwise_sortIns {α : Type} (le : α → α → Bool)
    (htot : ∀ a b, le a b = true ∨ le b a = true)
    (htrans : ∀ a b c, le a b = true → le b c = true → le a c = true)
    (x : α) :
    ∀ l : List α, l.Pairwise (fun a b => le a b = true) →
      (sortIns le x l).Pairwise (fun a b => le a b = true) := by
  intro l
  induction l with
  | nil => intro _; simp [sortIns]
  | cons y ys ih =>
    intro hl
    rcases List.pairwise_cons.mp hl with ⟨hy, hys⟩
    unfold sortIns
    by_cases h : le x y
    · simp only [h, if_true]
      refine List.pairwise_cons.mpr ⟨?_, hl⟩
      intro z hz
      rcases List.mem_cons.mp hz with hz | hz
      · exact hz ▸ h
      · exact htrans x y z h (hy z hz)
    · simp only [h, if_false]
      have hyx : le y x = true := by
        rcases htot x y with h2 | h2
        · exact absurd h2 h
        · exact h2
      refine List.pairwise_cons.mpr ⟨?_, ih hys⟩
      intro w hw
      rcases List.mem_cons.mp ((sortIns_perm le x ys).mem_iff.mp hw) with hw | hw
      · exact hw ▸ hyx
      · exact hy w hw

theorem pairwise_sortStable {α : Type} (le : α → α → Bool)
    (htot : ∀ a b, le a b = true ∨ le b a = true)
    (htrans : ∀ a b c, le a b = true → le b c = true → le a c = true) :
    ∀ l : List α, (sortStable le l).Pairwise (fun a b => le a b = true) := by
  intro l
  induction l with
  | nil => simp [sortStable]
  | cons x xs ih =>
    exact pairwise_sortIns le htot htrans x (sortStable le xs) ih

theorem sortIns_status_lex (x : Item) :
    ∀ l : List Item, l.Pairwise statusPriceLe → (∀ y ∈ l, x.price ≤ y.price) →
      (sortIns statusLe x l).Pairwise statusPriceLe := by
  intro l
  induction l with
  | nil => intro _ _; simp [sortIns]
  | cons y ys ih =>
    intro hl hx
    rcases List.pairwise_cons.mp hl with ⟨hy, hys⟩
    unfold sortIns
    by_cases h : statusLe x y
    · simp only [h, if_true]
      have hxy : x.status ≤ y.status := by
        unfold statusLe at h
        exact of_decide_eq_true h
      refine List.pairwise_cons.mpr ⟨?_, hl⟩
      intro z hz
      rcases List.mem_cons.mp hz with hz | hz
      · subst hz
        rcases lt_or_eq_of_le hxy with h2 | h2
        · exact Or.inl h2
        · exact Or.inr ⟨h2, hx z (List.mem_cons_self z ys)⟩
      · rcases hy z hz with h2 | h2
        · exact Or.inl (lt_of_le_of_lt hxy h2)
        · rcases lt_or_eq_of_le hxy with h3 | h3
          · exact Or.inl (h2.1 ▸ h3)
          · exact Or.inr ⟨h3.trans h2.1, hx z (List.mem_cons_of_mem y hz)⟩
    · simp only [h, if_false]
      have hyx : y.status < x.status := by
        unfold statusLe at h
        refine lt_of_not_le ?_
        intro hle
        exact h (decide_eq_true hle)
      refine List.pairwise_cons.mpr
        ⟨?_, ih hys (fun z hz => hx z (List.mem_cons_of_mem y hz))⟩
      intro w hw
      rcases List.mem_cons.mp ((sortIns_perm statusLe x ys).mem_iff.mp hw) with hw | hw
      · exact Or.inl (hw ▸ hyx)
      · exact hy w hw

theorem sortStable_status_lex :
    ∀ m : List Item, m.Pairwise (fun a b => a.price ≤ b.price) →
      (sortStable statusLe m).Pairwise statusPriceLe := by
  intro m
  induction m with
  | nil => intro _; simp [sortStable]
  | cons x xs ih =>
    intro hm
    rcases List.pairwise_cons.mp hm with ⟨hx, hxs⟩
    refine sortIns_status_lex x (sortStable statusLe xs) (ih hxs) ?_
    intro y hy
    exact hx y ((sortStable_perm statusLe xs).mem_iff.mp hy)

theorem filter_sortIns {α : Type} (le : α → α → Bool) (P : α → Bool)
    (h : ∀ a b, P a = true → P b = true → le a b = true) (x : α) :
    ∀ l : List α, (sortIns le x l).filter P = ((x :: l).filter P : List α) := by
  intro l
  induction l with
  | nil => rfl
  | cons y ys ih =>
    unfold sortIns
    by_cases hxy : le x y
    · simp [hxy]
    · simp only [hxy, if_false]
      by_cases hPx : P x
      · have hPy : P y = false := by
          cases hy : P y
          · rfl
          · exact absurd (h x y hPx hy) hxy
        simp [List.filter, hPx, hPy, ih]
      · simp only [List.filter]
        have hPx' : P x = false := Bool.eq_false_iff.mpr hPx
        rw [hPx']
        cases hy : P y <;> simp [hy, ih, List.filter, hPx']

theorem filter_sortStable {α : Type} (le : α → α → Bool) (P : α → Bool)
    (h : ∀ a b, P a = true → P b = true → le a b = true) :
    ∀ l : List α, (sortStable le l).filter P = l.filter P := by
  intro l
  induction l with
  | nil => rfl
  | cons x xs ih =>
    rw [show sortStable le (x :: xs) = sortIns le x (sortStable le xs) from rfl,
      filter_sortIns le P h]
    simp only [List.filter]
    cases hx : P x <;> simp [hx, ih]

/-- C7, amended: the report of `current_state` lists the snapshot's items
sorted by `status`, then by `price` ascending within equal status; items
tied on both status and price keep the order of their keys in the snapshot
(Python dict insertion order — both `sorted` passes are stable), so the
output is a deterministic function of the ordered snapshot. -/
theorem current_state_order_spec (config : TopicConfig) :
    List.Perm (current_state_order config) (config.lastState.map Prod.snd)
  ∧ (current_state_order config).Pairwise statusPriceLe
  ∧ ∀ s p, (current_state_order config).filter
        (fun it => it.status == s && it.price == p)
      = (config.lastState.map Prod.snd).filter
        (fun it => it.status == s && it.price == p) := by
  refine ⟨?_, ?_, ?_⟩
  · exact (sortStable_perm statusLe _).trans (sortStable_perm priceLe _)
  · apply sortStable_status_lex
    have hbase := pairwise_sortStable priceLe
      (fun a b => by
        unfold priceLe
        rcases le_total a.price b.price with h | h
        · exact Or.inl (decide_eq_true h)
        · exact Or.inr (decide_eq_true h))
      (fun a b c hab hbc => by
        unfold priceLe at *
        exact decide_eq_true (le_trans (of_decide_eq_true hab) (of_decide_eq_true hbc)))
      (config.lastState.map Prod.snd)
    exact hbase.imp (fun h => of_decide_eq_true h)
  · intro s p
    unfold current_state_order
    rw [filter_sortStable statusLe _ (fun a b ha hb => by
      have ha2 : a.status = s := by
        have := (Bool.and_eq_true _ _).mp ha
        exact eq_of_beq this.1
      have hb2 : b.status = s := by
        have := (Bool.and_eq_true _ _).mp hb
        exact eq_of_beq this.1
      unfold statusLe
      exact decide_eq_true (le_of_eq (ha2.trans hb2.symm)))]
    rw [filter_sortStable priceLe _ (fun a b ha hb => by
      have ha2 : a.price = p := by
        have := (Bool.and_eq_true _ _).mp ha
        exact eq_of_beq this.2
      have hb2 : b.price = p := by
        have := (Bool.and_eq_true _ _).mp hb
        exact eq_of_beq this.2
      unfold priceLe
      exact decide_eq_true (le_of_eq (ha2.trans hb2.symm)))]

/-- C7, counterexample to the claim as stated: two items with equal status
and equal price, inserted into the snapshot in the order "b" then "a",
are reported in that insertion order even though itemKey order would put
"a" first — the tie is NOT broken by itemKey order. -/
theorem current_state_tiebreak_cex :
    current_state_order (TopicConfig.mk
        [("b", Item.mk "b" "lb" "In Stock" 1), ("a", Item.mk "a" "la" "In Stock" 1)] [])
      = [Item.mk "b" "lb" "In Stock" 1, Item.mk "a" "la" "In Stock" 1]
  ∧ (Item.mk "a" "la" "In Stock" 1).name < (Item.mk "b" "lb" "In Stock" 1).name
  ∧ (Item.mk "a" "la" "In Stock" 1).status = (Item.mk "b" "lb" "In Stock" 1).status
  ∧ (Item.mk "a" "la" "In Stock" 1).price = (Item.mk "b" "lb" "In Stock" 1).price := by
  refine ⟨?_, ?_, rfl, rfl⟩
  · have hpe : priceLe (Item.mk "b" "lb" "In Stock" 1) (Item.mk "a" "la" "In Stock" 1)
        = true := by unfold priceLe; decide
    have hse : statusLe (Item.mk "b" "lb" "In Stock" 1) (Item.mk "a" "la" "In Stock" 1)
        = true := by
      unfold statusLe
      exact decide_eq_true (le_refl "In Stock")
    simp [current_state_order, sortStable, sortIns, hpe, hse]
  · show ("a" : String) < "b"
    rw [String.lt_iff_toList_lt]
    decide

theorem strFind_eq_none {c : Char} : ∀ l : List Char, strFind c l = none ↔ c ∉ l := by
  intro l
  induction l with
  | nil => simp [strFind]
  | cons x xs ih =>
    unfold strFind
    by_cases h : x = c
    · simp [h]
    · simp [h, Option.map_eq_none', ih, Ne.symm h]

theorem strFind_lt_length {c : Char} :
    ∀ {l : List Char} {n : Nat}, strFind c l = some n → n < l.length := by
  intro l
  induction l with
  | nil => intro n h; cases h
  | cons x xs ih =>
    intro n h
    unfold strFind at h
    by_cases hx : x = c
    · simp only [hx, if_true] at h
      simp [← Option.some_inj.mp h]
    · simp only [hx, if_false] at h
      rcases Option.map_eq_some'.mp h with ⟨m, hm, hn⟩
      have := ih hm
      simp
      omega

theorem strFind_replicate {c b : Char} (h : b ≠ c) (n : Nat) :
    strFind c (List.replicate n b) = none := by
  rw [strFind_eq_none]
  intro hmem
  exact h ((List.mem_replicate.mp hmem).2.symm)

theorem strFind_append_last {c : Char} :
    ∀ l : List Char, strFind c l = none → strFind c (l ++ [c]) = some l.length := by
  intro l
  induction l with
  | nil => simp [strFind]
  | cons x xs ih =>
    intro h
    unfold strFind at h
    by_cases hx : x = c
    · simp [hx] at h
    · simp only [hx, if_false, Option.map_eq_none'] at h
      rw [List.cons_append]
      unfold strFind
      simp only [hx, if_false, ih h]
      simp

theorem sendLoop_nil : ∀ fuel, sendLoop fuel [] = [] := by
  intro fuel
  cases fuel <;> rfl

theorem sendLoop_succ (fuel : Nat) (msg : List Char) :
    sendLoop (fuel + 1) msg = if msg.isEmpty then [] else
      (msg.take 2000).take (sendCut (msg.take 2000))
        :: sendLoop fuel (msg.drop (sendCut (msg.take 2000))) := rfl

theorem hasNewlineWindows_drop {msg : List Char} (h : hasNewlineWindows msg)
    (n : Nat) : hasNewlineWindows (msg.drop n) := by
  intro i hi hlen
  have hd : (msg.drop n).drop i = msg.drop (n + i) := List.drop_drop i n msg
  rw [hd] at hlen ⊢
  have hlt : n + i < msg.length := by
    rw [List.length_take, List.length_drop] at hlen
    omega
  exact h (n + i) hlt hlen

theorem flatten_sendLoop :
    ∀ (fuel : Nat) (msg : List Char), msg.length ≤ fuel →
      hasNewlineWindows msg → (sendLoop fuel msg).flatten = msg := by
  intro fuel
  induction fuel with
  | zero =>
    intro msg hlen _
    rw [List.eq_nil_of_length_eq_zero (Nat.le_zero.mp hlen)]
    rfl
  | succ fuel ih =>
    intro msg hlen hNW
    rw [sendLoop_succ]
    by_cases hmsg : msg.isEmpty
    · simp [hmsg, List.isEmpty_iff.mp hmsg]
    · rw [if_neg hmsg]
      have hne : msg ≠ [] := fun h => hmsg (by simp [h])
      have hpos : 0 < msg.length := List.length_pos.mpr hne
      cases hf : strFind '\n' (msg.take 2000).reverse with
      | none =>
        have hnot : '\n' ∉ msg.take 2000 := by
          intro hmem
          exact ((strFind_eq_none _).mp hf) (List.mem_reverse.mpr hmem)
        have hwin : msg.length < 2000 := by
          by_contra hge
          push_neg at hge
          apply hnot
          have h0 := hNW 0 hpos (by simp [List.length_take]; omega)
          simpa using h0
        have hcut : sendCut (msg.take 2000) = 2001 := by
          unfold sendCut
          rw [hf]
        rw [hcut, List.take_of_length_le (le_of_lt hwin)]
        rw [List.take_of_length_le (by omega : msg.length ≤ 2001)]
        rw [List.drop_eq_nil_of_le (by omega : msg.length ≤ 2001)]
        rw [sendLoop_nil]
        simp
      | some l =>
        have hlt : l < (msg.take 2000).reverse.length := strFind_lt_length hf
        rw [List.length_reverse, List.length_take] at hlt
        have hl2000 : l < 2000 := lt_of_lt_of_le hlt (min_le_left _ _)
        have hcut : sendCut (msg.take 2000) = 2000 - l := by
          unfold sendCut
          rw [hf]
        rw [hcut]
        have htake : (msg.take 2000).take (2000 - l) = msg.take (2000 - l) := by
          rw [List.take_take]
          congr 1
          omega
        rw [htake]
        have hdl : (msg.drop (2000 - l)).length ≤ fuel := by
          rw [List.length_drop]
          omega
        rw [List.flatten_cons, ih (msg.drop (2000 - l)) hdl (hasNewlineWindows_drop hNW _)]
        exact List.take_append_drop _ msg

/-- C8, amended: the concatenation of the sent chunks equals the original
message whenever every full 2000-character window the loop examines
contains a newline (in particular for every message shorter than 2000).
(The counterexample shows that a 2000-character newline-free window makes
the loop advance the offset by 2001 while sending 2000 characters,
dropping the character after the window.) -/
theorem send_chunks_join (msg : List Char) (h : hasNewlineWindows msg) :
    (sendChunks msg).flatten = msg :=
  flatten_sendLoop msg.length msg le_rfl h

/-- Witness for the amended C8 at a small concrete message. -/
theorem send_chunks_join_witness :
    hasNewlineWindows ['a', '\n', 'b']
  ∧ (sendChunks ['a', '\n', 'b']).flatten = ['a', '\n', 'b'] :=
  ⟨by decide, send_chunks_join ['a', '\n', 'b'] (by decide)⟩

/-- C8, counterexample to the claim as stated: a 2001-character message
with no newline in its first 2000 characters loses its last character —
the chunks sent concatenate to only the first 2000 characters. -/
theorem send_chunks_join_cex :
    (sendChunks (List.replicate 2001 'a')).flatten ≠ List.replicate 2001 'a' := by
  have hstep : sendChunks (List.replicate 2001 'a') = [List.replicate 2000 'a'] := by
    unfold sendChunks
    rw [List.length_replicate]
    rw [show (2001 : Nat) = 2000 + 1 by norm_num, sendLoop_succ]
    rw [if_neg (by
      intro h
      have := congrArg List.length (List.isEmpty_iff.mp h)
      rw [List.length_replicate] at this
      exact absurd this (by norm_num))]
    rw [show (2000 + 1 : Nat) = 2001 by norm_num]
    rw [show (List.replicate 2001 'a').take 2000 = List.replicate 2000 'a' by
      rw [List.take_replicate]; norm_num]
    rw [show sendCut (List.replicate 2000 'a') = 2001 by
      unfold sendCut
      rw [List.reverse_replicate, strFind_replicate (by decide) 2000]]
    rw [show (List.replicate 2000 'a').take 2001 = List.replicate 2000 'a' by
      rw [List.take_replicate]; norm_num]
    rw [show (List.replicate 2001 'a').drop 2001 = ([] : List Char) by
      rw [List.drop_replicate]; norm_num]
    rw [sendLoop_nil]
  rw [hstep]
  intro h
  have := congrArg List.length h
  rw [List.flatten_cons, List.flatten_nil, List.append_nil, List.length_replicate,
    List.length_replicate] at this
  exact absurd this (by norm_num)

/-- C4: evaluation of the chunking loop at a failing input. The message
`"\n" + "a" * 1000` (1001 characters, well under the 2000 limit) is split
into TWO chunks, the first being `"\n" + "a" * 999`: the split point
between the two chunks does not fall after a newline (999 newline-free
characters follow the chunk's newline and the line continues in the second
chunk), even though a newline exists at or before the limit. The cut
arithmetic `2000 - length` is only correct for windows of exactly 2000
characters. -/
theorem send_chunk_midline_bug :
    sendChunks ('\n' :: List.replicate 1000 'a')
      = ['\n' :: List.replicate 999 'a', ['a']]
  ∧ '\n' ∈ ('\n' :: List.replicate 1000 'a').take 2000
  ∧ '\n' ∉ List.replicate 999 'a' := by
  refine ⟨?_, ?_, ?_⟩
  · unfold sendChunks
    rw [show ('\n' :: List.replicate 1000 'a').length = 1000 + 1 by
      rw [List.length_cons, List.length_replicate]]
    rw [sendLoop_succ]
    rw [if_neg (fun h => Bool.noConfusion h)]
    rw [show ('\n' :: List.replicate 1000 'a').take 2000
        = '\n' :: List.replicate 1000 'a' by
      apply List.take_of_length_le
      rw [List.length_cons, List.length_replicate]
      norm_num]
    rw [show sendCut ('\n' :: List.replicate 1000 'a') = 1000 by
      unfold sendCut
      rw [List.reverse_cons, List.reverse_replicate,
        strFind_append_last _ (strFind_replicate (by decide) 1000)]
      rw [List.length_replicate]]
    rw [show ('\n' :: List.replicate 1000 'a').take 1000
        = '\n' :: List.replicate 999 'a' by
      rw [show (1000 : Nat) = 999 + 1 by norm_num, List.take_succ_cons,
        List.take_replicate]
      norm_num]
    rw [show ('\n' :: List.replicate 1000 'a').drop 1000 = ['a'] by
      rw [show (1000 : Nat) = 999 + 1 by norm_num, List.drop_succ_cons,
        List.drop_replicate]
      norm_num]
    rw [show sendLoop 1000 ['a'] = [['a']] by
      rw [show (1000 : Nat) = 999 + 1 by norm_num, sendLoop_succ]
      rw [if_neg (fun h => Bool.noConfusion h)]
      rw [show (['a'] : List Char).take 2000 = ['a'] from rfl]
      rw [show sendCut ['a'] = 2001 by
        unfold sendCut
        rw [show (['a'] : List Char).reverse = ['a'] from rfl]
        rw [show strFind '\n' ['a'] = none by decide]]
      rw [show (['a'] : List Char).take 2001 = ['a'] from rfl]
      rw [show (['a'] : List Char).drop 2001 = [] from rfl]
      rw [sendLoop_nil]]
  · rw [List.take_of_length_le (by
      rw [List.length_cons, List.length_replicate]
      norm_num)]
    exact List.mem_cons_self _ _
  · intro h
    have := (List.mem_replicate.mp h).2
    cases this

theorem cycleGo_cons (env : CycleEnv) (sup : Bool) (name : String)
    (rest : List String) (st : BotState) :
    cycleGo env sup (name :: rest) st =
      match lookupTopic name st.topics with
      | none => (st, false)
      | some cfg =>
        match env.runs name with
        | .failed => (st, false)
        | .quiet => cycleGo env sup rest st
        | .changed msg ns =>
          if msg = "" then cycleGo env sup rest st
          else if deliverAll env sup name cfg.subscribers then
            cycleGo env sup rest
              (BotState.mk (updateTopic st.topics name (setLastState ns))
                (updateTopic st.topics name (setLastState ns)))
          else (st, false) := rfl

theorem cycleGo_none (env : CycleEnv) (sup : Bool) (name : String)
    (rest : List String) (st : BotState)
    (hl : lookupTopic name st.topics = none) :
    cycleGo env sup (name :: rest) st = (st, false) := by
  rw [cycleGo_cons, hl]

theorem cycleGo_failed (env : CycleEnv) (sup : Bool) (name : String)
    (rest : List String) (st : BotState) (cfg : TopicConfig)
    (hl : lookupTopic name st.topics = some cfg)
    (hr : env.runs name = RunResult.failed) :
    cycleGo env sup (name :: rest) st = (st, false) := by
  rw [cycleGo_cons, hl, hr]

theorem cycleGo_quiet (env : CycleEnv) (sup : Bool) (name : String)
    (rest : List String) (st : BotState) (cfg : TopicConfig)
    (hl : lookupTopic name st.topics = some cfg)
    (hr : env.runs name = RunResult.quiet) :
    cycleGo env sup (name :: rest) st = cycleGo env sup rest st := by
  rw [cycleGo_cons, hl, hr]

theorem cycleGo_changed (env : CycleEnv) (sup : Bool) (name : String)
    (rest : List String) (st : BotState) (cfg : TopicConfig)
    (msg : String) (ns : Snapshot)
    (hl : lookupTopic name st.topics = some cfg)
    (hr : env.runs name = RunResult.changed msg ns) :
    cycleGo env sup (name :: rest) st =
      if msg = "" then cycleGo env sup rest st
      else if deliverAll env sup name cfg.subscribers then
        cycleGo env sup rest
          (BotState.mk (updateTopic st.topics name (setLastState ns))
            (updateTopic st.topics name (setLastState ns)))
      else (st, false) := by
  rw [cycleGo_cons, hl, hr]

theorem cycleGo_append (env : CycleEnv) (sup : Bool) :
    ∀ (pre rest : List String) (st : BotState),
      cycleGo env sup (pre ++ rest) st =
        if (cycleGo env sup pre st).2
        then cycleGo env sup rest (cycleGo env sup pre st).1
        else cycleGo env sup pre st := by
  intro pre
  induction pre with
  | nil =>
    intro rest st
    simp [cycleGo]
  | cons name pre' ih =>
    intro rest st
    rw [List.cons_append]
    cases hl : lookupTopic name st.topics with
    | none =>
      rw [cycleGo_none env sup name (pre' ++ rest) st hl,
        cycleGo_none env sup name pre' st hl]
      simp
    | some cfg =>
      cases hr : env.runs name with
      | failed =>
        rw [cycleGo_failed env sup name (pre' ++ rest) st cfg hl hr,
          cycleGo_failed env sup name pre' st cfg hl hr]
        simp
      | quiet =>
        rw [cycleGo_quiet env sup name (pre' ++ rest) st cfg hl hr,
          cycleGo_quiet env sup name pre' st cfg hl hr]
        exact ih rest st
      | changed msg ns =>
        rw [cycleGo_changed env sup name (pre' ++ rest) st cfg msg ns hl hr,
          cycleGo_changed env sup name pre' st cfg msg ns hl hr]
        by_cases hm : msg = ""
        · rw [if_pos hm, if_pos hm]
          exact ih rest st
        · rw [if_neg hm, if_neg hm]
          by_cases hd : deliverAll env sup name cfg.subscribers
          · rw [if_pos hd, if_pos hd]
            exact ih rest _
          · rw [if_neg hd, if_neg hd]
            simp

theorem cycleGo_topics_preserve (env : CycleEnv) (sup : Bool) :
    ∀ (names : List String) (st : BotState) (t : String), t ∉ names →
      lookupTopic t ((cycleGo env sup names st).1).topics
        = lookupTopic t st.topics := by
  intro names
  induction names with
  | nil => intro st t _; rfl
  | cons name rest ih =>
    intro st t ht
    have htn : t ≠ name := fun h => ht (h ▸ List.mem_cons_self name rest)
    have htr : t ∉ rest := fun h => ht (List.mem_cons_of_mem name h)
    cases hl : lookupTopic name st.topics with
    | none => rw [cycleGo_none env sup name rest st hl]
    | some cfg =>
      cases hr : env.runs name with
      | failed => rw [cycleGo_failed env sup name rest st cfg hl hr]
      | quiet =>
        rw [cycleGo_quiet env sup name rest st cfg hl hr]
        exact ih st t htr
      | changed msg ns =>
        rw [cycleGo_changed env sup name rest st cfg msg ns hl hr]
        by_cases hm : msg = ""
        · rw [if_pos hm]
          exact ih st t htr
        · rw [if_neg hm]
          by_cases hd : deliverAll env sup name cfg.subscribers
          · rw [if_pos hd, ih _ t htr]
            exact lookupTopic_updateTopic_other _ name t _ htn
          · rw [if_neg hd]

theorem cycleGo_saved_preserve (env : CycleEnv) (sup : Bool) :
    ∀ (names : List String) (st : BotState) (t : String), t ∉ names →
      lookupTopic t ((cycleGo env sup names st).1).saved = lookupTopic t st.saved
    ∨ lookupTopic t ((cycleGo env sup names st).1).saved = lookupTopic t st.topics := by
  intro names
  induction names with
  | nil => intro st t _; exact Or.inl rfl
  | cons name rest ih =>
    intro st t ht
    have htn : t ≠ name := fun h => ht (h ▸ List.mem_cons_self name rest)
    have htr : t ∉ rest := fun h => ht (List.mem_cons_of_mem name h)
    cases hl : lookupTopic name st.topics with
    | none =>
      rw [cycleGo_none env sup name rest st hl]
      exact Or.inl rfl
    | some cfg =>
      cases hr : env.runs name with
      | failed =>
        rw [cycleGo_failed env sup name rest st cfg hl hr]
        exact Or.inl rfl
      | quiet =>
        rw [cycleGo_quiet env sup name rest st cfg hl hr]
        exact ih st t htr
      | changed msg ns =>
        rw [cycleGo_changed env sup name rest st cfg msg ns hl hr]
        by_cases hm : msg = ""
        · rw [if_pos hm]
          exact ih st t htr
        · rw [if_neg hm]
          by_cases hd : deliverAll env sup name cfg.subscribers
          · rw [if_pos hd]
            have hupd : lookupTopic t (updateTopic st.topics name (setLastState ns))
                = lookupTopic t st.topics :=
              lookupTopic_updateTopic_other _ name t _ htn
            rcases ih (BotState.mk (updateTopic st.topics name (setLastState ns))
                (updateTopic st.topics name (setLastState ns))) t htr with h | h
            · exact Or.inr (h.trans hupd)
            · exact Or.inr (h.trans hupd)
          · rw [if_neg hd]
            exact Or.inl rfl

/-- C1: commit-after-delivery is atomic per topic. In a cycle over
`pre ++ t :: post` whose earlier topics completed without an exception,
if topic `t`'s plugin run returns a (truthy) notification and a new
snapshot, then: when the subscriber loop finishes without a raising send
(including the case of no subscribers), `t`'s `last_state` is the new
snapshot in the in-memory document AND in the saved document at the end of
the cycle; when some send raises, `t` keeps exactly its pre-cycle
`last_state` and the saved document never holds the new snapshot for `t`
(it holds `t`'s entry exactly as before the cycle, whether inherited from
the pre-cycle save or re-written by an earlier topic's commit). -/
theorem poll_commit_atomic
    (env : CycleEnv) (suppress : Bool) (st0 st1 : BotState)
    (pre post : List String) (t : String) (cfg : TopicConfig)
    (msg : String) (ns : Snapshot)
    (hpre : t ∉ pre) (hpost : t ∉ post)
    (hlook : lookupTopic t st0.topics = some cfg)
    (hrun : env.runs t = RunResult.changed msg ns) (hmsg : msg ≠ "")
    (hcycle : cycleGo env suppress pre st0 = (st1, true)) :
    (deliverAll env suppress t cfg.subscribers = true →
        lookupTopic t ((cycleGo env suppress (pre ++ t :: post) st0).1).topics
          = some (setLastState ns cfg)
      ∧ lookupTopic t ((cycleGo env suppress (pre ++ t :: post) st0).1).saved
          = some (setLastState ns cfg))
  ∧ (deliverAll env suppress t cfg.subscribers = false →
        lookupTopic t ((cycleGo env suppress (pre ++ t :: post) st0).1).topics
          = some cfg
      ∧ (lookupTopic t ((cycleGo env suppress (pre ++ t :: post) st0).1).saved
           = lookupTopic t st0.saved
         ∨ lookupTopic t ((cycleGo env suppress (pre ++ t :: post) st0).1).saved
           = some cfg)) := by
  have hfull : cycleGo env suppress (pre ++ t :: post) st0
      = cycleGo env suppress (t :: post) st1 := by
    rw [cycleGo_append, hcycle]
    simp
  have hst1 : lookupTopic t st1.topics = some cfg := by
    have := cycleGo_topics_preserve env suppress pre st0 t hpre
    rw [hcycle] at this
    exact this.trans hlook
  constructor
  · intro hd
    rw [hfull, cycleGo_changed env suppress t post st1 cfg msg ns hst1 hrun,
      if_neg hmsg, if_pos hd]
    set t2 := updateTopic st1.topics t (setLastState ns) with ht2
    have hlt2 : lookupTopic t t2 = some (setLastState ns cfg) := by
      rw [ht2, lookupTopic_updateTopic_self, hst1]
      rfl
    constructor
    · rw [cycleGo_topics_preserve env suppress post (BotState.mk t2 t2) t hpost]
      exact hlt2
    · rcases cycleGo_saved_preserve env suppress post (BotState.mk t2 t2) t hpost
        with h | h
      · exact h.trans hlt2
      · exact h.trans hlt2
  · intro hd
    rw [hfull, cycleGo_changed env suppress t post st1 cfg msg ns hst1 hrun,
      if_neg hmsg, if_neg (by rw [hd]; exact Bool.false_ne_true)]
    refine ⟨hst1, ?_⟩
    have := cycleGo_saved_preserve env suppress pre st0 t hpre
    rw [hcycle] at this
    rcases this with h | h
    · exact Or.inl h
    · exact Or.inr (h.trans hlook)

/-- Witness for C1 at the concrete one-topic cycle. -/
theorem poll_commit_atomic_witness :
    ("T" ∉ ([] : List String)) ∧
    lookupTopic "T" stW.topics = some (TopicConfig.mk [] [5]) ∧
    envW.runs "T" = RunResult.changed "m" [("x", Item.mk "x" "lx" "In Stock" 1)] ∧
    ("m" : String) ≠ "" ∧
    cycleGo envW false [] stW = (stW, true) ∧
    ((deliverAll envW false "T" (TopicConfig.mk [] [5]).subscribers = true →
        lookupTopic "T" ((cycleGo envW false ([] ++ "T" :: []) stW).1).topics
          = some (setLastState [("x", Item.mk "x" "lx" "In Stock" 1)] (TopicConfig.mk [] [5]))
      ∧ lookupTopic "T" ((cycleGo envW false ([] ++ "T" :: []) stW).1).saved
          = some (setLastState [("x", Item.mk "x" "lx" "In Stock" 1)] (TopicConfig.mk [] [5])))
  ∧ (deliverAll envW false "T" (TopicConfig.mk [] [5]).subscribers = false →
        lookupTopic "T" ((cycleGo envW false ([] ++ "T" :: []) stW).1).topics
          = some (TopicConfig.mk [] [5])
      ∧ (lookupTopic "T" ((cycleGo envW false ([] ++ "T" :: []) stW).1).saved
           = lookupTopic "T" stW.saved
         ∨ lookupTopic "T" ((cycleGo envW false ([] ++ "T" :: []) stW).1).saved
           = some (TopicConfig.mk [] [5])))) :=
  ⟨by decide, rfl, rfl, by decide, rfl,
    poll_commit_atomic envW false stW stW [] [] "T" (TopicConfig.mk [] [5])
      "m" [("x", Item.mk "x" "lx" "In Stock" 1)]
      (by decide) (by decide) rfl rfl (by decide) rfl⟩

/-- C2, counterexample to the claim as stated: topic "A"'s plugin run
raises, topic "B"'s run would return a notification and a new snapshot and
all its (zero) deliveries would succeed — yet the cycle ends at "A" with
the whole state untouched: "B" is never polled, never notified, never
committed (its `last_state` stays empty and nothing is saved), because the
`try/except` of `poll_for_changes` wraps the entire topic loop. -/
theorem poll_isolation_cex :
    cycleGo envC2 false ["A", "B"] stC2 = (stC2, false)
  ∧ envC2.runs "A" = RunResult.failed
  ∧ envC2.runs "B" = RunResult.changed "m" [("x", Item.mk "x" "lx" "In Stock" 1)]
  ∧ lookupTopic "B" stC2.topics = some (TopicConfig.mk [] [])
  ∧ ([] : Snapshot) ≠ [("x", Item.mk "x" "lx" "In Stock" 1)]
  ∧ lookupTopic "B" stC2.saved = none :=
  ⟨rfl, rfl, rfl, rfl, by decide, rfl⟩

/-- C2, amended: a raising plugin run (fetch/parse error) for one topic
aborts the REST of the cycle, not just that topic: the failing topic's
commit is skipped and no later topic is polled, notified or committed in
that cycle; commits already made by earlier topics in the same cycle are
kept (the cycle ends in exactly the state reached before the failing
topic). -/
theorem poll_abort_on_run_error
    (env : CycleEnv) (suppress : Bool) (st0 st1 : BotState)
    (pre post : List String) (t : String)
    (hcycle : cycleGo env suppress pre st0 = (st1, true))
    (hrun : env.runs t = RunResult.failed) :
    cycleGo env suppress (pre ++ t :: post) st0 = (st1, false) := by
  rw [cycleGo_append, hcycle]
  simp only [if_true]
  cases hl : lookupTopic t st1.topics with
  | none => exact cycleGo_none env suppress t post st1 hl
  | some cfg => exact cycleGo_failed env suppress t post st1 cfg hl hrun

/-- Witness for the amended C2 at the concrete two-topic cycle. -/
theorem poll_abort_on_run_error_witness :
    cycleGo envC2 false [] stC2 = (stC2, true)
  ∧ envC2.runs "A" = RunResult.failed
  ∧ cycleGo envC2 false ([] ++ "A" :: ["B"]) stC2 = (stC2, false) :=
  ⟨rfl, rfl, poll_abort_on_run_error envC2 false stC2 stC2 [] ["B"] "A" rfl rfl⟩

/-- Witness for C5 at a concrete two-item snapshot. -/
theorem diff_self_empty_witness :
    nodupKeys [("a", Item.mk "a" "la" "In Stock" 100), ("b", Item.mk "b" "lb" "Sold Out" 50)] ∧
    diff [("a", Item.mk "a" "la" "In Stock" 100), ("b", Item.mk "b" "lb" "Sold Out" 50)]
         [("a", Item.mk "a" "la" "In Stock" 100), ("b", Item.mk "b" "lb" "Sold Out" 50)] = ([], [], []) :=
  ⟨by decide, diff_self_empty _ (by decide)⟩

end NotifyMe
